import Mathlib

/-!
Verification of the SQL-to-OData translator of the dynamics-crm-toolkit
repository: the parser `SqlParser.parse` (src/sql-parser.ts), the request
builder `buildQueryUrl` of the query tool (query-tool.ts) and the
pre-request validation of `DynamicsApi.executeUpdate` / `executeDelete`
(dynamics-api.ts), embedded shallowly: JavaScript strings become `String`,
regular expressions become terms of a small backtracking regex calculus
`Re` whose matcher mirrors the JS engine's leftmost-match backtracking
semantics, thrown errors become `Except`.
-/

/-! ## JavaScript character and string primitives -/

/-- The characters the JS regex class `\s` (and `String.prototype.trim`)
accepts: ASCII whitespace, NBSP, the Unicode space separators, the line
separators and the BOM. -/
def isJsSpace (c : Char) : Bool :=
  let n := c.toNat
  n == 32 || n == 9 || n == 10 || n == 11 || n == 12 || n == 13 ||
  n == 0xA0 || n == 0x1680 || (0x2000 ≤ n && n ≤ 0x200A) ||
  n == 0x2028 || n == 0x2029 || n == 0x202F || n == 0x205F ||
  n == 0x3000 || n == 0xFEFF

/-- The JS regex class `\w`: ASCII letters, digits and underscore. -/
def isWordChar (c : Char) : Bool :=
  let n := c.toNat
  (65 ≤ n && n ≤ 90) || (97 ≤ n && n ≤ 122) || (48 ≤ n && n ≤ 57) || n == 95

/-- The JS regex class `\d`. -/
def isDigitChar (c : Char) : Bool :=
  48 ≤ c.toNat && c.toNat ≤ 57

/-- The JS regex `.` without the `s` flag: any char except a line terminator. -/
def isDotChar (c : Char) : Bool :=
  !(c.toNat == 10 || c.toNat == 13 || c.toNat == 0x2028 || c.toNat == 0x2029)

/-- The JS regex class `[^']`. -/
def isNotQuote (c : Char) : Bool :=
  !(c == '\'')

/-- ASCII lower-casing (the sources apply JS case mapping to ASCII text only;
this model restricts the Unicode mapping to its ASCII part). -/
def lowerAscii (c : Char) : Char :=
  if 65 ≤ c.toNat && c.toNat ≤ 90 then Char.ofNat (c.toNat + 32) else c

/-- ASCII upper-casing, the model of `String.prototype.toUpperCase` on the
ASCII inputs this code base handles. -/
def upperAscii (c : Char) : Char :=
  if 97 ≤ c.toNat && c.toNat ≤ 122 then Char.ofNat (c.toNat - 32) else c

/-- Character comparison, case-insensitive when `ci` is set (the `/i` flag). -/
def chEq (ci : Bool) (a b : Char) : Bool :=
  if ci then lowerAscii a == lowerAscii b else a == b

/-- `String.prototype.trim`. -/
def jsTrim (s : String) : String :=
  String.mk (((s.toList.dropWhile isJsSpace).reverse.dropWhile isJsSpace).reverse)

/-- `String.prototype.toUpperCase` (ASCII model). -/
def jsToUpper (s : String) : String :=
  String.mk (s.toList.map upperAscii)

/-- `String.prototype.toLowerCase` (ASCII model). -/
def jsToLower (s : String) : String :=
  String.mk (s.toList.map lowerAscii)

/-- `String.prototype.startsWith`. -/
def jsStartsWith (s pre : String) : Bool :=
  pre.toList.isPrefixOf s.toList

/-- `String.prototype.endsWith`. -/
def jsEndsWith (s post : String) : Bool :=
  post.toList.isSuffixOf s.toList

/-- `split` on a one-character separator string, JS semantics:
`"a,b,".split(",")` is `["a","b",""]` and `"".split(",")` is `[""]`. -/
def splitOnCharL (sep : Char) : List Char → List (List Char)
  | [] => [[]]
  | c :: cs =>
    if c = sep then [] :: splitOnCharL sep cs
    else
      match splitOnCharL sep cs with
      | [] => [[c]]
      | t :: ts => (c :: t) :: ts

/-- `String.prototype.split` with a one-character separator. -/
def jsSplitChar (sep : Char) (s : String) : List String :=
  (splitOnCharL sep s.toList).map String.mk

/-- One pass of `split(/\s+/)`: the state is `some acc` inside a token
(characters reversed) and `none` inside a separator run. -/
def splitWsGo : Option (List Char) → List Char → List (List Char)
  | st, [] =>
    [match st with
     | some acc => acc.reverse
     | none => []]
  | st, c :: cs =>
    if isJsSpace c then
      match st with
      | some acc => acc.reverse :: splitWsGo none cs
      | none => splitWsGo none cs
    else
      match st with
      | some acc => splitWsGo (some (c :: acc)) cs
      | none => splitWsGo (some [c]) cs

/-- `String.prototype.split(/\s+/)`: split on maximal whitespace runs (a
leading run yields a leading empty string, a trailing run a trailing one). -/
def splitWsRuns (s : String) : List String :=
  (splitWsGo (some []) s.toList).map String.mk

/-- Decimal digits to a number, `none` unless the list is one or more digits. -/
def digitsToNat : List Char → Option Nat
  | [] => none
  | ds =>
    if ds.all isDigitChar then
      some (ds.foldl (fun acc c => acc * 10 + (c.toNat - 48)) 0)
    else none

/-- `parseInt(s, 10)` on a string the pattern `(\d+)` captured. -/
def parseIntDec (s : String) : Nat :=
  (digitsToNat s.toList).getD 0

/-- `Number(s)` followed by the `isNaN` test, modelled for the integer
numerals this code base's statements use: after trimming, the empty string is
`0` and an optionally signed digit string is its value; every other form
(fractions, exponents, hex, `Infinity`) is treated as NaN (`none`). -/
def jsNumberQ (s : String) : Option Int :=
  match (jsTrim s).toList with
  | [] => some 0
  | '+' :: ds => (digitsToNat ds).map Int.ofNat
  | '-' :: ds => (digitsToNat ds).map (fun n => -(Int.ofNat n))
  | ds => (digitsToNat ds).map Int.ofNat

/-- `s.substring(a, b)` with JS semantics: indices clamped to the length and
swapped when `a > b`. -/
def jsSubstring (s : String) (a b : Nat) : String :=
  let len := s.toList.length
  let a' := min a len
  let b' := min b len
  let lo := min a' b'
  let hi := max a' b'
  String.mk ((s.toList.drop lo).take (hi - lo))

/-! ## The regex calculus

The four statement patterns of sql-parser.ts and the id-extraction pattern of
query-tool.ts use only: case-insensitive literals, the classes `\s \w \d . [^']`,
greedy `+`, lazy `(.*?)`, greedy optional non-capturing groups and capture
groups. `mat` is the standard continuation-passing backtracking matcher, which
on these constructs coincides with the JS engine: greedy repetition consumes
maximally and backtracks, lazy repetition consumes minimally and grows,
`(?:..)?` tries the group before skipping it, and a capture made on a branch
that fails is discarded with the branch. -/

/-- Regex terms. Repetition is restricted to character classes, which is all
the source's patterns use. -/
inductive Re where
  | cls (f : Char → Bool)
  | lit (l : List Char) (ci : Bool)
  | starG (f : Char → Bool)
  | starL (f : Char → Bool)
  | opt (r : Re)
  | grp (n : Nat) (r : Re)
  | cat (a b : Re)

/-- Capture environment: group index to captured characters, later captures
in front. -/
abbrev Caps := List (Nat × List Char)

/-- Match a literal (case-insensitively when `ci`), returning the rest. -/
def stripLit (ci : Bool) : List Char → List Char → Option (List Char)
  | [], rest => some rest
  | _ :: _, [] => none
  | l :: ls, c :: cs => if chEq ci l c then stripLit ci ls cs else none

/-- Greedy star over a class: consume while possible, backtrack on failure. -/
def matStarG (f : Char → Bool) (k : List Char → Option Caps) :
    List Char → Option Caps
  | [] => k []
  | c :: cs =>
    if f c then
      match matStarG f k cs with
      | some r => some r
      | none => k (c :: cs)
    else k (c :: cs)

/-- Lazy star over a class: try the continuation first, then consume. -/
def matStarL (f : Char → Bool) (k : List Char → Option Caps) :
    List Char → Option Caps
  | [] => k []
  | c :: cs =>
    match k (c :: cs) with
    | some r => some r
    | none => if f c then matStarL f k cs else none

/-- The backtracking matcher: match `r` at the head of the input and hand the
rest and the captures to the continuation `k`. -/
def mat : Re → List Char → Caps → (List Char → Caps → Option Caps) → Option Caps
  | .cls f, cs, env, k =>
    match cs with
    | [] => none
    | c :: cs' => if f c then k cs' env else none
  | .lit l ci, cs, env, k =>
    match stripLit ci l cs with
    | some rest => k rest env
    | none => none
  | .starG f, cs, env, k => matStarG f (fun rest => k rest env) cs
  | .starL f, cs, env, k => matStarL f (fun rest => k rest env) cs
  | .opt r, cs, env, k =>
    match mat r cs env k with
    | some res => some res
    | none => k cs env
  | .grp n r, cs, env, k =>
    mat r cs env (fun rest env' =>
      k rest ((n, cs.take (cs.length - rest.length)) :: env'))
  | .cat a b, cs, env, k =>
    mat a cs env (fun rest env' => mat b rest env' k)

/-- Unanchored search, as `String.prototype.match` without `g`: try each start
position left to right and return the first match's captures. -/
def searchFrom (r : Re) : List Char → Option Caps
  | [] => mat r [] [] (fun _ env => some env)
  | c :: cs =>
    match mat r (c :: cs) [] (fun _ env => some env) with
    | some env => some env
    | none => searchFrom r cs

/-- The capture of group `n`: `none` models an `undefined` group. -/
def capGet (env : Caps) (n : Nat) : Option (List Char) :=
  (env.find? (fun p => p.1 == n)).map (fun p => p.2)

/-- `f+` as the source patterns use it. -/
def plusG (f : Char → Bool) : Re :=
  .cat (.cls f) (.starG f)

/-- Case-insensitive literal (a pattern under the `/i` flag). -/
def litCI (s : String) : Re :=
  .lit s.toList true

/-- Case-sensitive literal. -/
def litX (s : String) : Re :=
  .lit s.toList false

/-- Right-nested sequence of regex terms. -/
def rcat : List Re → Re
  | [] => .lit [] false
  | [r] => r
  | r :: rs => .cat r (rcat rs)

/-! ## The statement patterns of sql-parser.ts -/

/-- `/SELECT\s+(.*?)\s+FROM\s+(\w+)(?:\s+WHERE\s+(.*?))?(?:\s+ORDER\s+BY\s+(.*?))?(?:\s+LIMIT\s+(\d+))?;/i` -/
def selectRe : Re := rcat [
  litCI "SELECT", plusG isJsSpace,
  .grp 1 (.starL isDotChar), plusG isJsSpace,
  litCI "FROM", plusG isJsSpace,
  .grp 2 (plusG isWordChar),
  .opt (rcat [plusG isJsSpace, litCI "WHERE", plusG isJsSpace,
    .grp 3 (.starL isDotChar)]),
  .opt (rcat [plusG isJsSpace, litCI "ORDER", plusG isJsSpace, litCI "BY",
    plusG isJsSpace, .grp 4 (.starL isDotChar)]),
  .opt (rcat [plusG isJsSpace, litCI "LIMIT", plusG isJsSpace,
    .grp 5 (plusG isDigitChar)]),
  litX ";"]

/-- `/INSERT\s+INTO\s+(\w+)\s+\((.*?)\)\s+VALUES\s+\((.*?)\);/i` -/
def insertRe : Re := rcat [
  litCI "INSERT", plusG isJsSpace, litCI "INTO", plusG isJsSpace,
  .grp 1 (plusG isWordChar), plusG isJsSpace,
  litX "(", .grp 2 (.starL isDotChar), litX ")",
  plusG isJsSpace, litCI "VALUES", plusG isJsSpace,
  litX "(", .grp 3 (.starL isDotChar), litX ");"]

/-- `/UPDATE\s+(\w+)\s+SET\s+(.*?)(?:\s+WHERE\s+(.*?))?;/i` -/
def updateRe : Re := rcat [
  litCI "UPDATE", plusG isJsSpace,
  .grp 1 (plusG isWordChar), plusG isJsSpace,
  litCI "SET", plusG isJsSpace,
  .grp 2 (.starL isDotChar),
  .opt (rcat [plusG isJsSpace, litCI "WHERE", plusG isJsSpace,
    .grp 3 (.starL isDotChar)]),
  litX ";"]

/-- `/DELETE\s+FROM\s+(\w+)(?:\s+WHERE\s+(.*?))?;/i` -/
def deleteRe : Re := rcat [
  litCI "DELETE", plusG isJsSpace, litCI "FROM", plusG isJsSpace,
  .grp 1 (plusG isWordChar),
  .opt (rcat [plusG isJsSpace, litCI "WHERE", plusG isJsSpace,
    .grp 2 (.starL isDotChar)]),
  litX ";"]

/-- `/(\w+id)\s+eq\s+'([^']+)'/i`, the id-extraction pattern of
query-tool.ts `buildQueryUrl`. -/
def idRe : Re := rcat [
  .grp 1 (.cat (plusG isWordChar) (litCI "id")),
  plusG isJsSpace, litCI "eq", plusG isJsSpace,
  litX "'", .grp 2 (plusG isNotQuote), litX "'"]

/-! ## The chained `.replace` calls of translateWhereClause

Each rule models one global-replace call `/\s*LIT\s*/g` or `/\s+LIT\s+/gi`
(`preOne`/`postOne` tell `\s+` from `\s*`). Since no literal starts or ends
with whitespace, the JS engine's leftmost greedy match is: the maximal
whitespace run before the literal, the literal, the maximal run after it;
scanning resumes after the match, as `replaceGo` does. -/

/-- One substitution rule of the chain. -/
structure SubstRule where
  preOne : Bool
  lit : String
  ci : Bool
  postOne : Bool
  rep : String

/-- Match a rule at the head of the input, returning the rest after the
match; `none` when the rule does not match here. -/
def tryRule (r : SubstRule) (cs : List Char) : Option (List Char) :=
  let pre := cs.takeWhile isJsSpace
  let rest1 := cs.dropWhile isJsSpace
  if r.preOne && pre.isEmpty then none
  else
    match stripLit r.ci r.lit.toList rest1 with
    | none => none
    | some rest2 =>
      let post := rest2.takeWhile isJsSpace
      let rest3 := rest2.dropWhile isJsSpace
      if r.postOne && post.isEmpty then none else some rest3

/-- Global replace: scan left to right, replace each match and resume after
it. The fuel is the input length; every match consumes at least the
(non-empty) literal, so it never runs out. -/
def replaceGo (r : SubstRule) : Nat → List Char → List Char
  | 0, cs => cs
  | _ + 1, [] => []
  | fuel + 1, c :: cs =>
    match tryRule r (c :: cs) with
    | some rest => r.rep.toList ++ replaceGo r fuel rest
    | none => c :: replaceGo r fuel cs

/-- One `.replace(/.../g, rep)` call. -/
def applyRule (r : SubstRule) (s : String) : String :=
  String.mk (replaceGo r s.toList.length s.toList)

/-- The eleven replace calls of `translateWhereClause`, in source order. -/
def whereRules : List SubstRule := [
  ⟨true, "AND", true, true, " and "⟩,
  ⟨true, "OR", true, true, " or "⟩,
  ⟨false, "=", false, false, " eq "⟩,
  ⟨false, "<>", false, false, " ne "⟩,
  ⟨false, ">", false, false, " gt "⟩,
  ⟨false, "<", false, false, " lt "⟩,
  ⟨false, ">=", false, false, " ge "⟩,
  ⟨false, "<=", false, false, " le "⟩,
  ⟨true, "LIKE", true, true, " contains "⟩,
  ⟨true, "IS NULL", true, false, " eq null"⟩,
  ⟨true, "IS NOT NULL", true, false, " ne null"⟩]

/-- `translateWhereClause` of sql-parser.ts: the chain of global replaces. -/
def translateWhereClause (whereClause : String) : String :=
  whereRules.foldl (fun acc r => applyRule r acc) whereClause

/-! ## Values and literal typing -/

/-- A JS scalar as the parser produces it (`undef` models `undefined`). -/
inductive JSValue where
  | str (s : String)
  | num (n : Int)
  | boolean (b : Bool)
  | null
  | undef
deriving DecidableEq

/-- The literal-typing chain sql-parser.ts applies to each (already trimmed)
INSERT value and UPDATE SET value: quoted string, number, boolean, null,
raw string. -/
def typeLiteral (trimmed : String) : JSValue :=
  if jsStartsWith trimmed "'" && jsEndsWith trimmed "'" then
    .str (jsSubstring trimmed 1 (trimmed.toList.length - 1))
  else
    match jsNumberQ trimmed with
    | some n => .num n
    | none =>
      if jsToLower trimmed = "true" then .boolean true
      else if jsToLower trimmed = "false" then .boolean false
      else if jsToLower trimmed = "null" then .null
      else .str trimmed

/-- `obj[key] = v` on a JS object kept as an insertion-ordered list: an
existing key keeps its position, a new one is appended. -/
def objSet (obj : List (String × JSValue)) (kv : String × JSValue) :
    List (String × JSValue) :=
  if obj.any (fun p => p.1 == kv.1) then
    obj.map (fun p => if p.1 == kv.1 then (p.1, kv.2) else p)
  else obj ++ [kv]

/-- `columns.forEach((col, index) => valuesObj[col] = values[index])`:
an index beyond the values array reads `undefined`. -/
def mkValuesGo (vals : List JSValue) (acc : List (String × JSValue)) (i : Nat) :
    List String → List (String × JSValue)
  | [] => acc
  | col :: cols => mkValuesGo vals (objSet acc (col, vals.getD i .undef)) (i + 1) cols

/-- The values object parseInsert builds from the column and value lists. -/
def mkValuesObj (cols : List String) (vals : List JSValue) :
    List (String × JSValue) :=
  mkValuesGo vals [] 0 cols

/-- One SET-clause assignment of parseUpdate:
`const [column, valueStr] = assignment.split('=').map(part => part.trim())`
takes the first two split segments; with no `=` at all, `valueStr` is
`undefined` and the following `.startsWith` throws (`none` here). -/
def parseAssignment (assignment : String) : Option (String × JSValue) :=
  match (jsSplitChar '=' assignment).map jsTrim with
  | column :: valueStr :: _ => some (column, typeLiteral valueStr)
  | _ => none

/-- Errors `SqlParser.parse` can surface: a thrown `Error(msg)`, or the
TypeError of reading a property of `undefined`. -/
inductive JsErr where
  | err (msg : String)
  | typeError
deriving DecidableEq

/-- The `setClause.split(',').forEach(...)` loop of parseUpdate. -/
def buildSetValuesGo (acc : List (String × JSValue)) :
    List String → Except JsErr (List (String × JSValue))
  | [] => .ok acc
  | a :: rest =>
    match parseAssignment a with
    | none => .error .typeError
    | some kv => buildSetValuesGo (objSet acc kv) rest

/-- One ORDER BY item: `parts[1] || 'ASC'` defaults a missing or empty
direction token, and anything other than DESC (case-insensitively) is asc. -/
def parseOrderByItem (item : String) : String × String :=
  let parts := splitWsRuns (jsTrim item)
  let field := parts.getD 0 ""
  let p1 := parts.getD 1 ""
  let tok := if p1 = "" then "ASC" else p1
  (field, if jsToUpper tok = "DESC" then "desc" else "asc")

/-- `parseOrderBy` of sql-parser.ts. -/
def parseOrderBy (orderByClause : String) : List (String × String) :=
  (jsSplitChar ',' orderByClause).map parseOrderByItem

/-! ## The parsed query -/

/-- The four operations. -/
inductive SqlOp where
  | select
  | insert
  | update
  | delete
deriving DecidableEq

/-- The `ParsedQuery` interface of sql-parser.ts; optional fields are
`Option`, the `values` object an insertion-ordered association list. -/
structure ParsedQuery where
  operation : SqlOp
  entity : String
  fields : Option (List String) := none
  filter : Option String := none
  orderBy : Option (List (String × String)) := none
  limit : Option Nat := none
  values : Option (List (String × JSValue)) := none
deriving DecidableEq

/-- Truthiness of an optional captured string: `undefined` and `""` are
falsy (`if (whereClause)` and the like). -/
def optTruthy (o : Option String) : Bool :=
  match o with
  | some s => !(s == "")
  | none => false

/-- `parseSelect` of sql-parser.ts. -/
def parseSelect (sql : String) : Except JsErr ParsedQuery :=
  match searchFrom selectRe sql.toList with
  | none => .error (.err "Invalid SELECT query format")
  | some env =>
    let fieldsStr := String.mk ((capGet env 1).getD [])
    let entity := String.mk ((capGet env 2).getD [])
    .ok {
      operation := .select
      entity := entity
      fields := some ((jsSplitChar ',' fieldsStr).map jsTrim)
      filter :=
        match capGet env 3 with
        | some w =>
          if w = [] then none else some (translateWhereClause (String.mk w))
        | none => none
      orderBy :=
        match capGet env 4 with
        | some o => if o = [] then none else some (parseOrderBy (String.mk o))
        | none => none
      limit :=
        match capGet env 5 with
        | some l => if l = [] then none else some (parseIntDec (String.mk l))
        | none => none }

/-- `parseInsert` of sql-parser.ts. -/
def parseInsert (sql : String) : Except JsErr ParsedQuery :=
  match searchFrom insertRe sql.toList with
  | none => .error (.err "Invalid INSERT query format")
  | some env =>
    let entity := String.mk ((capGet env 1).getD [])
    let columnsStr := String.mk ((capGet env 2).getD [])
    let valuesStr := String.mk ((capGet env 3).getD [])
    let columns := (jsSplitChar ',' columnsStr).map jsTrim
    let values := (jsSplitChar ',' valuesStr).map (fun v => typeLiteral (jsTrim v))
    .ok {
      operation := .insert
      entity := entity
      values := some (mkValuesObj columns values) }

/-- `parseUpdate` of sql-parser.ts. -/
def parseUpdate (sql : String) : Except JsErr ParsedQuery :=
  match searchFrom updateRe sql.toList with
  | none => .error (.err "Invalid UPDATE query format")
  | some env =>
    let entity := String.mk ((capGet env 1).getD [])
    let setClause := String.mk ((capGet env 2).getD [])
    match buildSetValuesGo [] (jsSplitChar ',' setClause) with
    | .error e => .error e
    | .ok setValues =>
      .ok {
        operation := .update
        entity := entity
        values := some setValues
        filter :=
          match capGet env 3 with
          | some w =>
            if w = [] then none else some (translateWhereClause (String.mk w))
          | none => none }

/-- `parseDelete` of sql-parser.ts. -/
def parseDelete (sql : String) : Except JsErr ParsedQuery :=
  match searchFrom deleteRe sql.toList with
  | none => .error (.err "Invalid DELETE query format")
  | some env =>
    let entity := String.mk ((capGet env 1).getD [])
    .ok {
      operation := .delete
      entity := entity
      filter :=
        match capGet env 2 with
        | some w =>
          if w = [] then none else some (translateWhereClause (String.mk w))
        | none => none }

/-- Trim the statement and append the terminating `;` when absent. -/
def canonSql (sql : String) : String :=
  let t := jsTrim sql
  if jsEndsWith t ";" then t else t ++ ";"

/-- `SqlParser.parse`: canonicalize, then dispatch on the upper-cased
prefix of the statement. -/
def SqlParser.parse (sql : String) : Except JsErr ParsedQuery :=
  let s := canonSql sql
  if jsStartsWith (jsToUpper s) "SELECT" then parseSelect s
  else if jsStartsWith (jsToUpper s) "INSERT" then parseInsert s
  else if jsStartsWith (jsToUpper s) "UPDATE" then parseUpdate s
  else if jsStartsWith (jsToUpper s) "DELETE" then parseDelete s
  else .error (.err "Unsupported SQL operation. Only SELECT, INSERT, UPDATE, and DELETE are supported.")

/-! ## The query-tool request builder

`buildQueryUrl` of query-tool.ts, with `URLSearchParams` modelled by the
WHATWG `application/x-www-form-urlencoded` serializer it implements: a byte
that is not alphanumeric or one of `* - . _` is percent-encoded (space as
`+`), names and values alike. -/

/-- The code points the urlencoded serializer leaves as they are. -/
def urlencodedSafe (c : Char) : Bool :=
  let n := c.toNat
  (48 ≤ n && n ≤ 57) || (65 ≤ n && n ≤ 90) || (97 ≤ n && n ≤ 122) ||
  n == 42 || n == 45 || n == 46 || n == 95

/-- Upper-case hex digit of `n < 16`. -/
def hexUpper (n : Nat) : Char :=
  if n < 10 then Char.ofNat (48 + n) else Char.ofNat (55 + n)

/-- The UTF-8 bytes of a character. -/
def utf8Bytes (c : Char) : List Nat :=
  let n := c.toNat
  if n < 0x80 then [n]
  else if n < 0x800 then [0xC0 + n / 64, 0x80 + n % 64]
  else if n < 0x10000 then
    [0xE0 + n / 4096, 0x80 + (n / 64) % 64, 0x80 + n % 64]
  else
    [0xF0 + n / 262144, 0x80 + (n / 4096) % 64, 0x80 + (n / 64) % 64,
     0x80 + n % 64]

/-- Percent-encode one byte. -/
def pctByte (b : Nat) : List Char :=
  ['%', hexUpper (b / 16), hexUpper (b % 16)]

/-- Serialize one character of a name or value. -/
def urlencodeChar (c : Char) : List Char :=
  if urlencodedSafe c then [c]
  else if c == ' ' then ['+']
  else ((utf8Bytes c).map pctByte).flatten

/-- Serialize a name or value. -/
def urlencode (s : String) : String :=
  String.mk ((s.toList.map urlencodeChar).flatten)

/-- `URLSearchParams.toString()` over the appended (name, value) pairs. -/
def serializeParams (ps : List (String × String)) : String :=
  String.intercalate "&" (ps.map (fun p => urlencode p.1 ++ "=" ++ urlencode p.2))

/-- The `$select` append: only when `fields` exists and is non-empty. -/
def selParamFields (q : ParsedQuery) : List (String × String) :=
  match q.fields with
  | some fs => if fs.length > 0 then [("$select", String.intercalate "," fs)] else []
  | none => []

/-- The `$filter` append: only when `filter` is truthy. -/
def selParamFilter (q : ParsedQuery) : List (String × String) :=
  match q.filter with
  | some f => if f = "" then [] else [("$filter", f)]
  | none => []

/-- `orderBy.map(item => item.field + " " + item.direction).join(",")`. -/
def orderByString (obs : List (String × String)) : String :=
  String.intercalate "," (obs.map (fun i => i.1 ++ " " ++ i.2))

/-- The `$orderby` append: only when `orderBy` exists and is non-empty. -/
def selParamOrder (q : ParsedQuery) : List (String × String) :=
  match q.orderBy with
  | some obs => if obs.length > 0 then [("$orderby", orderByString obs)] else []
  | none => []

/-- The `$top` append: only when `limit` is truthy (so not for `0`). -/
def selParamTop (q : ParsedQuery) : List (String × String) :=
  match q.limit with
  | some l => if l = 0 then [] else [("$top", toString l)]
  | none => []

/-- The parameter list the SELECT branch of `buildQueryUrl` appends, in
append order. -/
def selectParams (q : ParsedQuery) : List (String × String) :=
  selParamFields q ++ selParamFilter q ++ selParamOrder q ++ selParamTop q

/-- `filter.match(/(\w+id)\s+eq\s+'([^']+)'/i)`: the id field and the quoted
value when the heuristic pattern is found. -/
def idSearch (filter : String) : Option (String × String) :=
  match searchFrom idRe filter.toList with
  | none => none
  | some env =>
    match capGet env 1, capGet env 2 with
    | some fld, some v => some (String.mk fld, String.mk v)
    | _, _ => none

/-- `idValue.replace(/[{}]/g, '')`. -/
def stripBraces (s : String) : String :=
  String.mk (s.toList.filter (fun c => !(c == '\x7b' || c == '\x7d')))

/-- `buildQueryUrl` of query-tool.ts. The UPDATE/DELETE branches run only
with a truthy filter; their fallback appends the raw, unencoded
`?$filter=`; the SELECT branch serializes its `URLSearchParams`. -/
def buildQueryUrl (orgUrl : String) (q : ParsedQuery) : String :=
  let url := orgUrl ++ "/api/data/v9.2/" ++ q.entity
  match q.operation with
  | .update =>
    if optTruthy q.filter then
      let f := q.filter.getD ""
      match idSearch f with
      | some m => url ++ "(" ++ stripBraces m.2 ++ ")"
      | none => url ++ "?$filter=" ++ f
    else url
  | .delete =>
    if optTruthy q.filter then
      let f := q.filter.getD ""
      match idSearch f with
      | some m => url ++ "(" ++ stripBraces m.2 ++ ")"
      | none => url ++ "?$filter=" ++ f
    else url
  | .select =>
    let queryString := serializeParams (selectParams q)
    if queryString = "" then url else url ++ "?" ++ queryString
  | .insert => url

/-- The HTTP method the query tool's `executeQuery` switch picks. -/
def queryToolMethod (op : SqlOp) : String :=
  match op with
  | .select => "GET"
  | .insert => "POST"
  | .update => "PATCH"
  | .delete => "DELETE"

/-! ## JSON.stringify for the request body -/

/-- JSON string escaping: quote, backslash, the short control escapes, and
`\u00XX` for the other control characters. -/
def jsonEscapeChar (c : Char) : List Char :=
  if c == '"' then ['\\', '"']
  else if c == '\\' then ['\\', '\\']
  else if c == '\n' then ['\\', 'n']
  else if c == '\r' then ['\\', 'r']
  else if c == '\t' then ['\\', 't']
  else if c == '\x08' then ['\\', 'b']
  else if c == '\x0c' then ['\\', 'f']
  else if c.toNat < 32 then
    ['\\', 'u', '0', '0', hexUpper (c.toNat / 16), hexUpper (c.toNat % 16)]
  else [c]

/-- Escape a string and wrap it in quotes. -/
def jsonQuote (s : String) : String :=
  "\"" ++ String.mk ((s.toList.map jsonEscapeChar).flatten) ++ "\""

/-- One JSON member value; `undefined` members are omitted by
`JSON.stringify`, hence `none`. -/
def jsonOfValue : JSValue → Option String
  | .str s => some (jsonQuote s)
  | .num n => some (toString n)
  | .boolean b => some (cond b "true" "false")
  | .null => some "null"
  | .undef => none

/-- `JSON.stringify` of the values object, members in insertion order. -/
def jsonStringifyObj (vs : List (String × JSValue)) : String :=
  "\x7b" ++
    String.intercalate ","
      (vs.filterMap (fun p => (jsonOfValue p.2).map (fun j => jsonQuote p.1 ++ ":" ++ j))) ++
  "\x7d"

/-- The request body the query tool's `executeQuery` switch picks:
`JSON.stringify(parsedQuery.values)` for INSERT and UPDATE, none otherwise. -/
def queryToolBody (q : ParsedQuery) : Option String :=
  match q.operation with
  | .select => none
  | .delete => none
  | .insert => q.values.map jsonStringifyObj
  | .update => q.values.map jsonStringifyObj

/-! ## The pre-request validation of DynamicsApi -/

/-- The guard clauses of `DynamicsApi.executeUpdate` before any request is
issued: `if (!values) throw`, `if (!filter) throw` (an absent or empty
filter is falsy). -/
def executeUpdateCheck (q : ParsedQuery) : Except String Unit :=
  if q.values.isNone then
    .error "No values provided for UPDATE operation"
  else if !(optTruthy q.filter) then
    .error "Filter (WHERE clause) is required for UPDATE operations"
  else .ok ()

/-- The guard clause of `DynamicsApi.executeDelete` before any request is
issued. -/
def executeDeleteCheck (q : ParsedQuery) : Except String Unit :=
  if !(optTruthy q.filter) then
    .error "Filter (WHERE clause) is required for DELETE operations"
  else .ok ()

/-! ## Definitions following the claims' own words (for counterexamples) -/

/-- The identifier shape the spec claims for `entity`:
`[A-Za-z_][A-Za-z0-9_]*`. -/
def specIdentOk (s : String) : Bool :=
  match s.toList with
  | [] => false
  | c :: rest =>
    ((65 ≤ c.toNat && c.toNat ≤ 90) || (97 ≤ c.toNat && c.toNat ≤ 122) ||
      c == '_') && rest.all isWordChar

/-- The first whitespace-delimited token of a statement, the unit the
dispatch claim speaks of. -/
def specFirstToken (s : String) : String :=
  (splitWsRuns (jsTrim s)).getD 0 ""

deriving instance DecidableEq for Except

/-! ## Soundness of the matcher

`Lang r w` is the declarative language of a pattern (captures ignored),
`CapOk r n w` says group `n` of `r` can capture `w`, `MandGrp r n` that
group `n` is outside every optional group, so a successful match must bind
it. `mat_sound` ties the matcher to these: whatever the continuation is run
on is a suffix, the consumed part is in the language, and the capture
environment only grows, by captures the groups can make. -/

/-- Declarative membership: `w` matches the pattern. -/
inductive Lang : Re → List Char → Prop where
  | cls {f c} : f c = true → Lang (.cls f) [c]
  | lit {l ci w} : stripLit ci l w = some [] → Lang (.lit l ci) w
  | starG {f w} : (∀ c ∈ w, f c = true) → Lang (.starG f) w
  | starL {f w} : (∀ c ∈ w, f c = true) → Lang (.starL f) w
  | optN {r} : Lang (.opt r) []
  | optS {r w} : Lang r w → Lang (.opt r) w
  | grp {n r w} : Lang r w → Lang (.grp n r) w
  | cat {a b w1 w2} : Lang a w1 → Lang b w2 → Lang (.cat a b) (w1 ++ w2)

/-- Group `n` of the pattern can capture `w`. -/
inductive CapOk : Re → Nat → List Char → Prop where
  | grpHere {n r w} : Lang r w → CapOk (.grp n r) n w
  | grpIn {m r n w} : CapOk r n w → CapOk (.grp m r) n w
  | optIn {r n w} : CapOk r n w → CapOk (.opt r) n w
  | catL {a b n w} : CapOk a n w → CapOk (.cat a b) n w
  | catR {a b n w} : CapOk b n w → CapOk (.cat a b) n w

/-- Group `n` stands outside every optional part of the pattern. -/
def MandGrp : Re → Nat → Prop
  | .grp m r, n => m = n ∨ MandGrp r n
  | .cat a b, n => MandGrp a n ∨ MandGrp b n
  | .cls _, _ => False
  | .lit _ _, _ => False
  | .starG _, _ => False
  | .starL _, _ => False
  | .opt _, _ => False

/-- Every occurrence of group `n` in the pattern has body `f+`. -/
def GrpShape : Re → Nat → (Char → Bool) → Prop
  | .grp m r, n, f => (m = n → r = plusG f) ∧ GrpShape r n f
  | .cat a b, n, f => GrpShape a n f ∧ GrpShape b n f
  | .opt r, n, f => GrpShape r n f
  | _, _, _ => True

theorem stripLit_split {ci : Bool} :
    ∀ {l cs rest : List Char}, stripLit ci l cs = some rest →
      ∃ pre, cs = pre ++ rest ∧ stripLit ci l pre = some [] := by
  intro l
  induction l with
  | nil =>
    intro cs rest h
    simp [stripLit] at h
    exact ⟨[], by simp [h], rfl⟩
  | cons c ls ih =>
    intro cs rest h
    cases cs with
    | nil => simp [stripLit] at h
    | cons x xs =>
      simp only [stripLit] at h
      split at h
      · obtain ⟨pre, hpre, hstrip⟩ := ih h
        refine ⟨x :: pre, by simp [hpre], ?_⟩
        simp only [stripLit]
        split
        · exact hstrip
        · simp_all
      · exact absurd h (by simp)

theorem matStarG_sound {f : Char → Bool} :
    ∀ {cs : List Char} {k : List Char → Option Caps} {out : Caps},
      matStarG f k cs = some out →
      ∃ pre rest, cs = pre ++ rest ∧ (∀ c ∈ pre, f c = true) ∧ k rest = some out := by
  intro cs
  induction cs with
  | nil =>
    intro k out h
    exact ⟨[], [], rfl, by simp, h⟩
  | cons c cs' ih =>
    intro k out h
    simp only [matStarG] at h
    split at h
    · rename_i hf
      cases hrec : matStarG f k cs' with
      | some r =>
        simp only [hrec] at h
        obtain ⟨pre, rest, hsplit, hall, hk⟩ := ih hrec
        cases h
        refine ⟨c :: pre, rest, by simp [hsplit], ?_, hk⟩
        intro x hx
        rcases List.mem_cons.mp hx with hx | hx
        · exact hx ▸ hf
        · exact hall x hx
      | none =>
        simp only [hrec] at h
        exact ⟨[], c :: cs', rfl, by simp, h⟩
    · exact ⟨[], c :: cs', rfl, by simp, h⟩

theorem matStarL_sound {f : Char → Bool} :
    ∀ {cs : List Char} {k : List Char → Option Caps} {out : Caps},
      matStarL f k cs = some out →
      ∃ pre rest, cs = pre ++ rest ∧ (∀ c ∈ pre, f c = true) ∧ k rest = some out := by
  intro cs
  induction cs with
  | nil =>
    intro k out h
    exact ⟨[], [], rfl, by simp, h⟩
  | cons c cs' ih =>
    intro k out h
    simp only [matStarL] at h
    cases hk : k (c :: cs') with
    | some r =>
      simp only [hk] at h
      cases h
      exact ⟨[], c :: cs', rfl, by simp, hk⟩
    | none =>
      simp only [hk] at h
      split at h
      · rename_i hf
        obtain ⟨pre, rest, hsplit, hall, hkk⟩ := ih h
        refine ⟨c :: pre, rest, by simp [hsplit], ?_, hkk⟩
        intro x hx
        rcases List.mem_cons.mp hx with hx | hx
        · exact hx ▸ hf
        · exact hall x hx
      · exact absurd h (by simp)

theorem mat_sound :
    ∀ (r : Re) {cs : List Char} {env : Caps}
      {k : List Char → Caps → Option Caps} {out : Caps},
      mat r cs env k = some out →
      ∃ pre rest env',
        cs = pre ++ rest ∧ Lang r pre ∧
        (∀ p, p ∈ env → p ∈ env') ∧
        (∀ p, p ∈ env' → p ∈ env ∨ CapOk r p.1 p.2) ∧
        (∀ n, MandGrp r n → ∃ w, (n, w) ∈ env') ∧
        k rest env' = some out := by
  intro r
  induction r with
  | cls f =>
    intro cs env k out h
    cases cs with
    | nil => simp [mat] at h
    | cons c cs' =>
      simp only [mat] at h
      split at h
      · rename_i hf
        exact ⟨[c], cs', env, rfl, Lang.cls hf, fun p hp => hp,
          fun p hp => Or.inl hp, fun n hn => absurd hn (by simp [MandGrp]), h⟩
      · exact absurd h (by simp)
  | lit l ci =>
    intro cs env k out h
    simp only [mat] at h
    cases hs : stripLit ci l cs with
    | none => rw [hs] at h; exact absurd h (by simp)
    | some rest =>
      rw [hs] at h
      obtain ⟨pre, hsplit, hstrip⟩ := stripLit_split hs
      exact ⟨pre, rest, env, hsplit, Lang.lit hstrip, fun p hp => hp,
        fun p hp => Or.inl hp, fun n hn => absurd hn (by simp [MandGrp]), h⟩
  | starG f =>
    intro cs env k out h
    simp only [mat] at h
    obtain ⟨pre, rest, hsplit, hall, hk⟩ := matStarG_sound h
    exact ⟨pre, rest, env, hsplit, Lang.starG hall, fun p hp => hp,
      fun p hp => Or.inl hp, fun n hn => absurd hn (by simp [MandGrp]), hk⟩
  | starL f =>
    intro cs env k out h
    simp only [mat] at h
    obtain ⟨pre, rest, hsplit, hall, hk⟩ := matStarL_sound h
    exact ⟨pre, rest, env, hsplit, Lang.starL hall, fun p hp => hp,
      fun p hp => Or.inl hp, fun n hn => absurd hn (by simp [MandGrp]), hk⟩
  | opt r ih =>
    intro cs env k out h
    simp only [mat] at h
    cases hm : mat r cs env k with
    | some res =>
      rw [hm] at h
      cases h
      obtain ⟨pre, rest, env', hsplit, hlang, hsub, hcap, _, hk⟩ := ih hm
      exact ⟨pre, rest, env', hsplit, Lang.optS hlang, hsub,
        fun p hp => (hcap p hp).imp id CapOk.optIn,
        fun n hn => absurd hn (by simp [MandGrp]), hk⟩
    | none =>
      rw [hm] at h
      exact ⟨[], cs, env, rfl, Lang.optN, fun p hp => hp,
        fun p hp => Or.inl hp, fun n hn => absurd hn (by simp [MandGrp]), h⟩
  | grp n r ih =>
    intro cs env k out h
    simp only [mat] at h
    obtain ⟨pre, rest, env', hsplit, hlang, hsub, hcap, hmand, hk⟩ := ih h
    have htake : cs.take (cs.length - rest.length) = pre := by
      rw [hsplit]
      simp [List.take_left]
    rw [htake] at hk
    refine ⟨pre, rest, (n, pre) :: env', hsplit, Lang.grp hlang,
      fun p hp => List.mem_cons_of_mem _ (hsub p hp), ?_, ?_, hk⟩
    · intro p hp
      rcases List.mem_cons.mp hp with hp | hp
      · exact Or.inr (hp ▸ CapOk.grpHere hlang)
      · exact (hcap p hp).imp id CapOk.grpIn
    · intro m hm
      rcases hm with hm | hm
      · exact ⟨pre, by rw [← hm]; exact List.mem_cons_self _ _⟩
      · obtain ⟨w, hw⟩ := hmand m hm
        exact ⟨w, List.mem_cons_of_mem _ hw⟩
  | cat a b iha ihb =>
    intro cs env k out h
    simp only [mat] at h
    obtain ⟨pre1, rest1, env1, hsplit1, hlang1, hsub1, hcap1, hmand1, hk1⟩ := iha h
    obtain ⟨pre2, rest2, env2, hsplit2, hlang2, hsub2, hcap2, hmand2, hk2⟩ := ihb hk1
    refine ⟨pre1 ++ pre2, rest2, env2, ?_, Lang.cat hlang1 hlang2,
      fun p hp => hsub2 p (hsub1 p hp), ?_, ?_, hk2⟩
    · rw [hsplit1, hsplit2, List.append_assoc]
    · intro p hp
      rcases hcap2 p hp with hp2 | hp2
      · rcases hcap1 p hp2 with hp1 | hp1
        · exact Or.inl hp1
        · exact Or.inr (CapOk.catL hp1)
      · exact Or.inr (CapOk.catR hp2)
    · intro m hm
      rcases hm with hm | hm
      · obtain ⟨w, hw⟩ := hmand1 m hm
        exact ⟨w, hsub2 _ hw⟩
      · exact hmand2 m hm

theorem searchFrom_sound {r : Re} :
    ∀ {cs : List Char} {env : Caps}, searchFrom r cs = some env →
      (∀ p, p ∈ env → CapOk r p.1 p.2) ∧
      (∀ n, MandGrp r n → ∃ w, (n, w) ∈ env) := by
  intro cs
  induction cs with
  | nil =>
    intro env h
    simp only [searchFrom] at h
    obtain ⟨pre, rest, env', _, _, _, hcap, hmand, hk⟩ := mat_sound r h
    cases hk
    exact ⟨fun p hp => (hcap p hp).resolve_left (by simp), hmand⟩
  | cons c cs' ih =>
    intro env h
    simp only [searchFrom] at h
    cases hm : mat r (c :: cs') [] (fun _ env => some env) with
    | some env0 =>
      simp only [hm] at h
      cases h
      obtain ⟨pre, rest, env', _, _, _, hcap, hmand, hk⟩ := mat_sound r hm
      cases hk
      exact ⟨fun p hp => (hcap p hp).resolve_left (by simp), hmand⟩
    | none =>
      simp only [hm] at h
      exact ih h

theorem lang_plusG {f : Char → Bool} {w : List Char} (h : Lang (plusG f) w) :
    w ≠ [] ∧ ∀ c ∈ w, f c = true := by
  cases h with
  | cat h1 h2 =>
    cases h1 with
    | cls hc =>
      cases h2 with
      | starG hall =>
        refine ⟨by simp, ?_⟩
        intro x hx
        rcases List.mem_cons.mp hx with hx | hx
        · exact hx ▸ hc
        · exact hall x hx

theorem capOk_shape {f : Char → Bool} :
    ∀ {r : Re} {n : Nat} {w : List Char},
      GrpShape r n f → CapOk r n w → w ≠ [] ∧ ∀ c ∈ w, f c = true := by
  intro r n w hs hc
  induction hc with
  | grpHere hl =>
    rename_i m rr ww
    have hbody := hs.1 rfl
    exact lang_plusG (hbody ▸ hl)
  | grpIn _ ih => exact ih hs.2
  | optIn _ ih => exact ih hs
  | catL _ ih => exact ih hs.1
  | catR _ ih => exact ih hs.2

theorem selectRe_shape : GrpShape selectRe 2 isWordChar := by
  simp [GrpShape, selectRe, rcat]

theorem selectRe_mand : MandGrp selectRe 2 := by
  simp [MandGrp, selectRe, rcat]

theorem insertRe_shape : GrpShape insertRe 1 isWordChar := by
  simp [GrpShape, insertRe, rcat]

theorem insertRe_mand : MandGrp insertRe 1 := by
  simp [MandGrp, insertRe, rcat]

theorem updateRe_shape : GrpShape updateRe 1 isWordChar := by
  simp [GrpShape, updateRe, rcat]

theorem updateRe_mand : MandGrp updateRe 1 := by
  simp [MandGrp, updateRe, rcat]

theorem deleteRe_shape : GrpShape deleteRe 1 isWordChar := by
  simp [GrpShape, deleteRe, rcat]

theorem deleteRe_mand : MandGrp deleteRe 1 := by
  simp [MandGrp, deleteRe, rcat]

theorem entity_ok_of_search {re : Re} {g : Nat} {cs : List Char} {env : Caps}
    (hshape : GrpShape re g isWordChar) (hmand : MandGrp re g)
    (h : searchFrom re cs = some env) :
    ∃ w, capGet env g = some w ∧ w ≠ [] ∧ ∀ c ∈ w, isWordChar c = true := by
  obtain ⟨hcap, hm⟩ := searchFrom_sound h
  obtain ⟨w, hw⟩ := hm g hmand
  unfold capGet
  cases hf : env.find? (fun p => p.1 == g) with
  | none =>
    have := List.find?_eq_none.mp hf (g, w) hw
    simp at this
  | some p =>
    have hpmem : p ∈ env := List.mem_of_find?_eq_some hf
    have hpg : p.1 = g := by
      have := List.find?_some hf
      simpa using this
    have := hcap p hpmem
    rw [hpg] at this
    exact ⟨p.2, rfl, capOk_shape hshape this⟩

/-! ## String and list helper lemmas -/

theorem strToList_append (s t : String) : (s ++ t).toList = s.toList ++ t.toList := by
  cases s
  cases t
  rfl

theorem strMk_toList (s : String) : String.mk s.toList = s := by
  cases s
  rfl

theorem toList_strMk (l : List Char) : (String.mk l).toList = l := rfl

theorem splitOnCharL_not_mem {sep : Char} :
    ∀ {xs : List Char}, sep ∉ xs → splitOnCharL sep xs = [xs] := by
  intro xs
  induction xs with
  | nil => intro _; rfl
  | cons c cs ih =>
    intro h
    have hc : ¬(c = sep) := fun hh => h (hh ▸ List.mem_cons_self _ _)
    have hcs : sep ∉ cs := fun hh => h (List.mem_cons_of_mem _ hh)
    simp only [splitOnCharL, if_neg hc, ih hcs]

theorem splitOnCharL_append {sep : Char} :
    ∀ {xs ys : List Char}, sep ∉ xs →
      splitOnCharL sep (xs ++ sep :: ys) = xs :: splitOnCharL sep ys := by
  intro xs
  induction xs with
  | nil =>
    intro ys _
    simp [splitOnCharL]
  | cons c cs ih =>
    intro ys h
    have hc : ¬(c = sep) := fun hh => h (hh ▸ List.mem_cons_self _ _)
    have hcs : sep ∉ cs := fun hh => h (List.mem_cons_of_mem _ hh)
    show splitOnCharL sep (c :: (cs ++ sep :: ys)) = (c :: cs) :: splitOnCharL sep ys
    rw [splitOnCharL, if_neg hc, ih hcs]

/-! ## Entity lemmas for the four parsers -/

theorem parseSelect_entity {s : String} {q : ParsedQuery}
    (h : parseSelect s = .ok q) :
    q.entity.toList ≠ [] ∧ ∀ c ∈ q.entity.toList, isWordChar c = true := by
  unfold parseSelect at h
  cases hs : searchFrom selectRe s.toList with
  | none => rw [hs] at h; exact absurd h (by simp)
  | some env =>
    rw [hs] at h
    obtain ⟨w, hcap, hne, hall⟩ := entity_ok_of_search selectRe_shape selectRe_mand hs
    simp only [Except.ok.injEq] at h
    subst h
    simp only [toList_strMk, hcap, Option.getD_some]
    exact ⟨hne, hall⟩

theorem parseInsert_entity {s : String} {q : ParsedQuery}
    (h : parseInsert s = .ok q) :
    q.entity.toList ≠ [] ∧ ∀ c ∈ q.entity.toList, isWordChar c = true := by
  unfold parseInsert at h
  cases hs : searchFrom insertRe s.toList with
  | none => rw [hs] at h; exact absurd h (by simp)
  | some env =>
    rw [hs] at h
    obtain ⟨w, hcap, hne, hall⟩ := entity_ok_of_search insertRe_shape insertRe_mand hs
    simp only [Except.ok.injEq] at h
    subst h
    simp only [toList_strMk, hcap, Option.getD_some]
    exact ⟨hne, hall⟩

theorem parseUpdate_entity {s : String} {q : ParsedQuery}
    (h : parseUpdate s = .ok q) :
    q.entity.toList ≠ [] ∧ ∀ c ∈ q.entity.toList, isWordChar c = true := by
  unfold parseUpdate at h
  cases hs : searchFrom updateRe s.toList with
  | none => rw [hs] at h; exact absurd h (by simp)
  | some env =>
    rw [hs] at h
    dsimp only at h
    obtain ⟨w, hcap, hne, hall⟩ := entity_ok_of_search updateRe_shape updateRe_mand hs
    cases hb : buildSetValuesGo []
        (jsSplitChar ',' (String.mk ((capGet env 2).getD []))) with
    | error e => rw [hb] at h; exact absurd h (by simp)
    | ok setValues =>
      rw [hb] at h
      simp only [Except.ok.injEq] at h
      subst h
      simp only [toList_strMk, hcap, Option.getD_some]
      exact ⟨hne, hall⟩

theorem parseDelete_entity {s : String} {q : ParsedQuery}
    (h : parseDelete s = .ok q) :
    q.entity.toList ≠ [] ∧ ∀ c ∈ q.entity.toList, isWordChar c = true := by
  unfold parseDelete at h
  cases hs : searchFrom deleteRe s.toList with
  | none => rw [hs] at h; exact absurd h (by simp)
  | some env =>
    rw [hs] at h
    obtain ⟨w, hcap, hne, hall⟩ := entity_ok_of_search deleteRe_shape deleteRe_mand hs
    simp only [Except.ok.injEq] at h
    subst h
    simp only [toList_strMk, hcap, Option.getD_some]
    exact ⟨hne, hall⟩

/-! ## Positional-binding lemmas for the INSERT values object -/

/-- The association list the forEach produces when no column repeats:
column `j` bound to value `i + j`. -/
def bindRow (vals : List JSValue) : Nat → List String → List (String × JSValue)
  | _, [] => []
  | i, c :: cs => (c, vals.getD i .undef) :: bindRow vals (i + 1) cs

theorem objSet_append {acc : List (String × JSValue)} {k : String} {v : JSValue}
    (h : ∀ p ∈ acc, p.1 ≠ k) : objSet acc (k, v) = acc ++ [(k, v)] := by
  unfold objSet
  rw [if_neg]
  simp only [List.any_eq_true, not_exists, not_and]
  intro p hp
  simpa using h p hp

theorem mkValuesGo_eq {vals : List JSValue} :
    ∀ (cols : List String) (acc : List (String × JSValue)) (i : Nat),
      cols.Nodup → (∀ c ∈ cols, ∀ p ∈ acc, p.1 ≠ c) →
      mkValuesGo vals acc i cols = acc ++ bindRow vals i cols := by
  intro cols
  induction cols with
  | nil => intro acc i _ _; simp [mkValuesGo, bindRow]
  | cons col cols ih =>
    intro acc i hnd hdis
    have hhead : ∀ p ∈ acc, p.1 ≠ col :=
      hdis col (List.mem_cons_self _ _)
    simp only [mkValuesGo, bindRow]
    rw [objSet_append hhead]
    rw [ih (acc ++ [(col, vals.getD i .undef)]) (i + 1) (List.Nodup.of_cons hnd)]
    · simp
    · intro c hc p hp
      rcases List.mem_append.mp hp with hp | hp
      · exact hdis c (List.mem_cons_of_mem _ hc) p hp
      · have hpc : p = (col, vals.getD i .undef) := by simpa using hp
        have hcolnot : col ∉ cols := (List.nodup_cons.mp hnd).1
        subst hpc
        intro hcol
        exact hcolnot ((show col = c from hcol) ▸ hc)

theorem bindRow_fst {vals : List JSValue} :
    ∀ (cols : List String) (i : Nat), (bindRow vals i cols).map Prod.fst = cols := by
  intro cols
  induction cols with
  | nil => intro i; rfl
  | cons c cs ih => intro i; simp [bindRow, ih]

theorem bindRow_lookup {vals : List JSValue} :
    ∀ (cols : List String) (i j : Nat) (hj : j < cols.length), cols.Nodup →
      (bindRow vals i cols).lookup (cols.get ⟨j, hj⟩) =
        some (vals.getD (i + j) .undef) := by
  intro cols
  induction cols with
  | nil => intro i j hj _; exact absurd hj (by simp)
  | cons c cs ih =>
    intro i j hj hnd
    cases j with
    | zero => simp [bindRow, List.lookup]
    | succ j' =>
      have hget : (c :: cs).get ⟨j' + 1, hj⟩ = cs.get ⟨j', by simpa using hj⟩ := rfl
      have hcnot : c ∉ cs := (List.nodup_cons.mp hnd).1
      have hne : (cs.get ⟨j', by simpa using hj⟩ == c) = false := by
        simp only [beq_eq_false_iff_ne, ne_eq]
        intro hh
        exact hcnot (hh ▸ cs.get_mem _ _)
      simp only [bindRow, List.lookup, hget, hne]
      rw [ih (i + 1) j' (by simpa using hj) (List.Nodup.of_cons hnd)]
      have : i + 1 + j' = i + (j' + 1) := by omega
      rw [this]

/-! ## Keyword-prefix exclusion for the dispatch -/

theorem isPrefixOf_head_excl {cs : List Char} {a b : Char} {as bs : List Char}
    (h : List.isPrefixOf (a :: as) cs = true) (hne : a ≠ b) :
    List.isPrefixOf (b :: bs) cs = false := by
  cases cs with
  | nil => simp [List.isPrefixOf] at h
  | cons c cs' =>
    simp only [List.isPrefixOf, Bool.and_eq_true, beq_iff_eq] at h
    simp only [List.isPrefixOf, Bool.and_eq_false_iff, beq_eq_false_iff_ne, ne_eq]
    exact Or.inl (fun hb => hne (h.1 ▸ hb ▸ rfl))

/-! ## Names of the optional SELECT parameters -/

theorem selParamFilter_all (q : ParsedQuery) :
    (selParamFilter q).all (fun p => !(p.1 == "$select")) = true := by
  unfold selParamFilter
  cases q.filter with
  | none => rfl
  | some f =>
    by_cases hf : f = ""
    · simp [hf]
    · simp only [if_neg hf, List.all_cons, List.all_nil, Bool.and_true]
      decide

theorem selParamOrder_all (q : ParsedQuery) :
    (selParamOrder q).all (fun p => !(p.1 == "$select")) = true := by
  unfold selParamOrder
  cases q.orderBy with
  | none => rfl
  | some obs =>
    by_cases ho : obs.length > 0
    · simp only [if_pos ho, List.all_cons, List.all_nil, Bool.and_true]
      decide
    · simp [if_neg ho]

theorem selParamTop_all (q : ParsedQuery) :
    (selParamTop q).all (fun p => !(p.1 == "$select")) = true := by
  unfold selParamTop
  cases q.limit with
  | none => rfl
  | some l =>
    by_cases hl : l = 0
    · simp [hl]
    · simp only [if_neg hl, List.all_cons, List.all_nil, Bool.and_true]
      decide

/-! ## Concrete fixtures the claim theorems evaluate -/

/-- A demonstration organisation base URL. -/
def demoBase : String := "https://o.crm.dynamics.com"

/-- The query parsed from the round-trip statement of the spec. -/
def c2Query : ParsedQuery :=
  { operation := .select, entity := "foo", fields := some ["a", "b"],
    filter := some "x eq 1", orderBy := some [("y", "asc")], limit := some 10 }

/-- The query parsed from `SELECT * FROM foo`. -/
def qStar : ParsedQuery :=
  { operation := .select, entity := "foo", fields := some ["*"] }

/-- The query parsed from `SELECT name, revenue FROM account`. -/
def qTwoFields : ParsedQuery :=
  { operation := .select, entity := "account", fields := some ["name", "revenue"] }

/-- The query parsed from `UPDATE t SET a = b=c`. -/
def qUpdSecondEq : ParsedQuery :=
  { operation := .update, entity := "t", values := some [("a", .str "b")] }

/-- The query parsed from `UPDATE t SET a = 1` (no WHERE clause). -/
def qUpdNoWhere : ParsedQuery :=
  { operation := .update, entity := "t", values := some [("a", .num 1)] }

/-- The query parsed from `DELETE FROM t` (no WHERE clause). -/
def qDelNoWhere : ParsedQuery :=
  { operation := .delete, entity := "t" }

/-- The query parsed from `INSERT INTO t (a, b, c) VALUES ('x', 'y')`. -/
def qInsMissing : ParsedQuery :=
  { operation := .insert, entity := "t",
    values := some [("a", .str "x"), ("b", .str "y"), ("c", .undef)] }

/-- The query parsed from `INSERT INTO t (a) VALUES (1, 2)`. -/
def qInsExtra : ParsedQuery :=
  { operation := .insert, entity := "t", values := some [("a", .num 1)] }

/-- The query parsed from `SELECT a FROM 9foo`. -/
def qEntityDigit : ParsedQuery :=
  { operation := .select, entity := "9foo", fields := some ["a"] }

/-- The query parsed from
`UPDATE account SET name = 'X' WHERE accountid eq '{123}'`. -/
def c9Query : ParsedQuery :=
  { operation := .update, entity := "account",
    filter := some "accountid eq '{123}'", values := some [("name", .str "X")] }

/-- Keyword prefixes with different first letters exclude one another. -/
theorem startsWith_excl (t a b : String) (ca cb : Char) (la lb : List Char)
    (ha : a.toList = ca :: la) (hb : b.toList = cb :: lb) (hne : ca ≠ cb)
    (h : jsStartsWith t a = true) : jsStartsWith t b = false := by
  unfold jsStartsWith at h ⊢
  rw [ha] at h
  rw [hb]
  exact isPrefixOf_head_excl h hne

/-! ## The claims -/

/-- C1: the claim says multi-character operators are matched before their
single-character parts, so `a >= b` becomes `a ge b` and `a <= b` becomes
`a le b`. In the code the `=`, `>` and `<` replaces run before the `>=` and
`<=` ones (which are thereby dead), so the translation is `a gt eq b` and
`a lt eq b`; only `<>` is ordered before its parts. -/
theorem translate_ge_le_divergence :
    translateWhereClause "a >= b" = "a gt eq b"
    ∧ translateWhereClause "a <= b" = "a lt eq b"
    ∧ translateWhereClause "a >= b" ≠ "a ge b"
    ∧ translateWhereClause "a <= b" ≠ "a le b"
    ∧ translateWhereClause "a <> b" = "a ne b"
    ∧ translateWhereClause "age > 18 AND name = 'Bob'" = "age gt 18 and name eq 'Bob'" := by
  decide

/-- C2 counterexample: the round-trip statement does not produce the plain
query string `?$select=a,b&$filter=x eq 1&$orderby=y asc&$top=10` the claim
states, because `URLSearchParams` percent-encodes names and values. -/
theorem select_roundtrip_plain_cex :
    SqlParser.parse "SELECT a, b FROM foo WHERE x = 1 ORDER BY y LIMIT 10" = .ok c2Query
    ∧ buildQueryUrl demoBase c2Query ≠
        "https://o.crm.dynamics.com/api/data/v9.2/foo?$select=a,b&$filter=x eq 1&$orderby=y asc&$top=10" := by
  decide

/-- C2 amended: parsing the round-trip statement and building the request
yields a GET whose URL is the base collection URL for `foo` followed by the
form-urlencoded serialization of those four parameters:
`?%24select=a%2Cb&%24filter=x+eq+1&%24orderby=y+asc&%24top=10`. -/
theorem select_roundtrip_encoded :
    SqlParser.parse "SELECT a, b FROM foo WHERE x = 1 ORDER BY y LIMIT 10" = .ok c2Query
    ∧ queryToolMethod c2Query.operation = "GET"
    ∧ selectParams c2Query =
        [("$select", "a,b"), ("$filter", "x eq 1"), ("$orderby", "y asc"), ("$top", "10")]
    ∧ buildQueryUrl demoBase c2Query =
        "https://o.crm.dynamics.com/api/data/v9.2/foo?%24select=a%2Cb&%24filter=x+eq+1&%24orderby=y+asc&%24top=10" := by
  decide

/-- C3 counterexample: for the single-wildcard fields list `["*"]` the claim
says `$select` is omitted; the code only tests `fields.length > 0`, so
`SELECT * FROM foo` gets `$select=*` appended. -/
theorem select_wildcard_cex :
    SqlParser.parse "SELECT * FROM foo" = .ok qStar
    ∧ qStar.fields = some ["*"]
    ∧ selectParams qStar = [("$select", "*")]
    ∧ (selectParams qStar).all (fun p => !(p.1 == "$select")) = false
    ∧ buildQueryUrl demoBase qStar =
        "https://o.crm.dynamics.com/api/data/v9.2/foo?%24select=*" := by
  decide

/-- C3 amended: the built request omits the `$select` parameter exactly when
the fields list is absent or empty; for every non-empty fields list —
including the single wildcard `["*"]` — `$select` is appended first, with the
comma-joined field list as its value. -/
theorem select_params_rule :
    (∀ q : ParsedQuery, (q.fields = none ∨ q.fields = some []) →
      (selectParams q).all (fun p => !(p.1 == "$select")) = true)
    ∧ (∀ (q : ParsedQuery) (fs : List String), q.fields = some fs → fs ≠ [] →
      (selectParams q).head? = some ("$select", String.intercalate "," fs))
    ∧ SqlParser.parse "SELECT name, revenue FROM account" = .ok qTwoFields
    ∧ selectParams qTwoFields = [("$select", "name,revenue")] := by
  refine ⟨?_, ?_, by decide, by decide⟩
  · intro q h
    unfold selectParams
    have hf : selParamFields q = [] := by
      unfold selParamFields
      rcases h with h | h <;> simp [h]
    rw [hf, List.nil_append, List.all_append, List.all_append,
      selParamFilter_all, selParamOrder_all, selParamTop_all]
    rfl
  · intro q fs hfs hne
    unfold selectParams selParamFields
    rw [hfs]
    have hlen : fs.length > 0 := List.length_pos.mpr hne
    simp [hlen]

/-- C4 counterexample: in `UPDATE t SET a = b=c` the claim says the value of
`a` is the whole text after the first `=`, that is `b=c`; the code keeps only
the segment between the first and second `=`, binding `a` to `"b"`. -/
theorem update_set_second_eq_cex :
    SqlParser.parse "UPDATE t SET a = b=c" = .ok qUpdSecondEq
    ∧ qUpdSecondEq.values = some [("a", .str "b")]
    ∧ qUpdSecondEq.values ≠ some [("a", .str "b=c")] := by
  decide

/-- C4 amended: each SET assignment is split at every `=`; the column is the
trimmed first segment and the value the trimmed second segment, so text after
a second `=` is discarded (when there is exactly one `=`, the value is the
trimmed text after it). -/
theorem update_set_split_segments :
    (∀ pre mid post : String, '=' ∉ pre.toList → '=' ∉ mid.toList →
      parseAssignment (pre ++ "=" ++ mid ++ "=" ++ post) =
        some (jsTrim pre, typeLiteral (jsTrim mid)))
    ∧ (∀ pre val : String, '=' ∉ pre.toList → '=' ∉ val.toList →
      parseAssignment (pre ++ "=" ++ val) =
        some (jsTrim pre, typeLiteral (jsTrim val)))
    ∧ parseAssignment "a = b=c" = some ("a", .str "b") := by
  refine ⟨?_, ?_, by decide⟩
  · intro pre mid post hpre hmid
    unfold parseAssignment jsSplitChar
    have h1 : (pre ++ "=" ++ mid ++ "=" ++ post).toList
        = pre.toList ++ '=' :: (mid.toList ++ '=' :: post.toList) := by
      simp only [strToList_append]
      simp [List.append_assoc]
    rw [h1, splitOnCharL_append hpre, splitOnCharL_append hmid]
    simp only [List.map_cons, strMk_toList]
  · intro pre val hpre hval
    unfold parseAssignment jsSplitChar
    have h1 : (pre ++ "=" ++ val).toList = pre.toList ++ '=' :: val.toList := by
      simp only [strToList_append]
      simp [List.append_assoc]
    rw [h1, splitOnCharL_append hpre, splitOnCharL_not_mem hval]
    simp only [List.map_cons, strMk_toList]

/-- C5 counterexample: the first token of `SELECTABLE x` is `SELECTABLE`,
which is none of the four keywords, yet parse fails with the Invalid SELECT
error, not the UnsupportedOperation one, because dispatch tests the
case-insensitive prefix, not the first token. -/
theorem dispatch_prefix_cex :
    specFirstToken "SELECTABLE x" = "SELECTABLE"
    ∧ ¬("SELECTABLE" = "SELECT" ∨ "SELECTABLE" = "INSERT" ∨
        "SELECTABLE" = "UPDATE" ∨ "SELECTABLE" = "DELETE")
    ∧ SqlParser.parse "SELECTABLE x" = .error (.err "Invalid SELECT query format")
    ∧ JsErr.err "Invalid SELECT query format" ≠
        .err "Unsupported SQL operation. Only SELECT, INSERT, UPDATE, and DELETE are supported." := by
  decide

/-- C5 amended: dispatch is by case-insensitive prefix of the canonicalized
statement: a statement whose upper-cased text starts with SELECT, INSERT,
UPDATE or DELETE — even mid-word — is handed to that operation's grammar, and
one starting with none of them fails with the UnsupportedOperation error. -/
theorem parse_dispatch_by_prefix :
    (∀ s : String,
      jsStartsWith (jsToUpper (canonSql s)) "SELECT" = false →
      jsStartsWith (jsToUpper (canonSql s)) "INSERT" = false →
      jsStartsWith (jsToUpper (canonSql s)) "UPDATE" = false →
      jsStartsWith (jsToUpper (canonSql s)) "DELETE" = false →
      SqlParser.parse s = .error (.err "Unsupported SQL operation. Only SELECT, INSERT, UPDATE, and DELETE are supported."))
    ∧ (∀ s : String, jsStartsWith (jsToUpper (canonSql s)) "SELECT" = true →
      SqlParser.parse s = parseSelect (canonSql s))
    ∧ (∀ s : String, jsStartsWith (jsToUpper (canonSql s)) "INSERT" = true →
      SqlParser.parse s = parseInsert (canonSql s))
    ∧ (∀ s : String, jsStartsWith (jsToUpper (canonSql s)) "UPDATE" = true →
      SqlParser.parse s = parseUpdate (canonSql s))
    ∧ (∀ s : String, jsStartsWith (jsToUpper (canonSql s)) "DELETE" = true →
      SqlParser.parse s = parseDelete (canonSql s))
    ∧ SqlParser.parse "DROP TABLE x" =
        .error (.err "Unsupported SQL operation. Only SELECT, INSERT, UPDATE, and DELETE are supported.") := by
  refine ⟨?_, ?_, ?_, ?_, ?_, by decide⟩
  · intro s h1 h2 h3 h4
    simp only [SqlParser.parse, h1, h2, h3, h4]
    rfl
  · intro s h
    simp only [SqlParser.parse, h]
    rfl
  · intro s h
    have hS := startsWith_excl _ "INSERT" "SELECT" 'I' 'S' _ _ rfl rfl (by decide) h
    simp only [SqlParser.parse, hS, h]
    rfl
  · intro s h
    have hS := startsWith_excl _ "UPDATE" "SELECT" 'U' 'S' _ _ rfl rfl (by decide) h
    have hI := startsWith_excl _ "UPDATE" "INSERT" 'U' 'I' _ _ rfl rfl (by decide) h
    simp only [SqlParser.parse, hS, hI, h]
    rfl
  · intro s h
    have hS := startsWith_excl _ "DELETE" "SELECT" 'D' 'S' _ _ rfl rfl (by decide) h
    have hI := startsWith_excl _ "DELETE" "INSERT" 'D' 'I' _ _ rfl rfl (by decide) h
    have hU := startsWith_excl _ "DELETE" "UPDATE" 'D' 'U' _ _ rfl rfl (by decide) h
    simp only [SqlParser.parse, hS, hI, hU, h]
    rfl

/-- C6 counterexample: `SELECT a FROM 9foo` parses, and its entity `9foo`
does not match the claimed `[A-Za-z_][A-Za-z0-9_]*` (it begins with a
digit). -/
theorem entity_digit_cex :
    SqlParser.parse "SELECT a FROM 9foo" = .ok qEntityDigit
    ∧ qEntityDigit.entity = "9foo"
    ∧ specIdentOk "9foo" = false := by
  decide

/-- C6 amended: for every input on which parse succeeds, the entity is a
non-empty string of word characters `[A-Za-z0-9_]` (it may begin with a
digit), for all four operations. -/
theorem parse_entity_word :
    (∀ (s : String) (q : ParsedQuery), SqlParser.parse s = .ok q →
      q.entity.toList ≠ [] ∧ ∀ c ∈ q.entity.toList, isWordChar c = true)
    ∧ SqlParser.parse "SELECT a FROM 9foo" = .ok qEntityDigit
    ∧ ("9foo".toList ≠ [] ∧ ∀ c ∈ "9foo".toList, isWordChar c = true) := by
  refine ⟨?_, by decide, by decide⟩
  intro s q h
  simp only [SqlParser.parse] at h
  split at h
  · exact parseSelect_entity h
  · split at h
    · exact parseInsert_entity h
    · split at h
      · exact parseUpdate_entity h
      · split at h
        · exact parseDelete_entity h
        · exact absurd h (by simp)

/-- C7: the parser accepts UPDATE and DELETE statements without a WHERE
clause (filter stays absent), and the DynamicsApi request-builder stage fails
with the required-filter error before issuing any request. -/
theorem update_delete_filter_required :
    (∀ q : ParsedQuery, q.values.isNone = false → q.filter = none →
      executeUpdateCheck q =
        .error "Filter (WHERE clause) is required for UPDATE operations")
    ∧ (∀ q : ParsedQuery, q.filter = none →
      executeDeleteCheck q =
        .error "Filter (WHERE clause) is required for DELETE operations")
    ∧ SqlParser.parse "UPDATE t SET a = 1" = .ok qUpdNoWhere
    ∧ qUpdNoWhere.filter = none
    ∧ SqlParser.parse "DELETE FROM t" = .ok qDelNoWhere
    ∧ qDelNoWhere.filter = none
    ∧ executeUpdateCheck qUpdNoWhere =
        .error "Filter (WHERE clause) is required for UPDATE operations"
    ∧ executeDeleteCheck qDelNoWhere =
        .error "Filter (WHERE clause) is required for DELETE operations" := by
  refine ⟨?_, ?_, by decide, by decide, by decide, by decide, by decide, by decide⟩
  · intro q hv hf
    unfold executeUpdateCheck
    rw [hv]
    simp [optTruthy, hf]
  · intro q hf
    unfold executeDeleteCheck
    simp [optTruthy, hf]

/-- C8: the INSERT values object binds columns to values strictly by
position: with distinct columns the keys are exactly the listed columns in
order, column `j` is bound to value `j`, an index beyond the values list
yields `undefined`, and values beyond the column list are dropped (no key
holds them). The two parses exercise the fewer-values and more-values
cases. -/
theorem insert_positional_binding :
    (∀ (cols : List String) (vals : List JSValue), cols.Nodup →
      (mkValuesObj cols vals).map Prod.fst = cols
      ∧ ∀ (j : Nat) (hj : j < cols.length),
        (mkValuesObj cols vals).lookup (cols.get ⟨j, hj⟩) =
          some (vals.getD j .undef))
    ∧ SqlParser.parse "INSERT INTO t (a, b, c) VALUES ('x', 'y')" = .ok qInsMissing
    ∧ qInsMissing.values = some [("a", .str "x"), ("b", .str "y"), ("c", .undef)]
    ∧ SqlParser.parse "INSERT INTO t (a) VALUES (1, 2)" = .ok qInsExtra
    ∧ qInsExtra.values = some [("a", .num 1)] := by
  refine ⟨?_, by decide, by decide, by decide, by decide⟩
  intro cols vals hnd
  unfold mkValuesObj
  rw [mkValuesGo_eq cols [] 0 hnd (by simp)]
  rw [List.nil_append]
  refine ⟨bindRow_fst cols 0, ?_⟩
  intro j hj
  simpa using bindRow_lookup cols 0 j hj hnd

/-- C9: for an UPDATE or DELETE whose (truthy) filter matches the
`<word>id eq '<value>'` heuristic, the builder strips the braces from the
value and targets the single record `<collection>(<id>)`, with method PATCH
for UPDATE (body the JSON values) and DELETE for DELETE; the concrete UPDATE
of the spec resolves to `PATCH .../account(123)` with body
`{"name":"X"}`. -/
theorem update_delete_direct_id :
    (∀ (q : ParsedQuery) (f fld v base : String),
      q.operation = .update → q.filter = some f → f ≠ "" →
      idSearch f = some (fld, v) →
      buildQueryUrl base q =
        base ++ "/api/data/v9.2/" ++ q.entity ++ "(" ++ stripBraces v ++ ")")
    ∧ (∀ (q : ParsedQuery) (f fld v base : String),
      q.operation = .delete → q.filter = some f → f ≠ "" →
      idSearch f = some (fld, v) →
      buildQueryUrl base q =
        base ++ "/api/data/v9.2/" ++ q.entity ++ "(" ++ stripBraces v ++ ")")
    ∧ queryToolMethod .update = "PATCH"
    ∧ queryToolMethod .delete = "DELETE"
    ∧ SqlParser.parse "UPDATE account SET name = 'X' WHERE accountid eq '{123}'" = .ok c9Query
    ∧ idSearch "accountid eq '{123}'" = some ("accountid", "{123}")
    ∧ stripBraces "{123}" = "123"
    ∧ buildQueryUrl demoBase c9Query =
        "https://o.crm.dynamics.com/api/data/v9.2/account(123)"
    ∧ queryToolBody c9Query = some "\x7b\"name\":\"X\"\x7d" := by
  refine ⟨?_, ?_, rfl, rfl, by decide, by decide, by decide, by decide, by decide⟩
  · intro q f fld v base hop hfil hfne hid
    unfold buildQueryUrl
    rw [hop, hfil]
    have ht : optTruthy (some f) = true := by
      simp [optTruthy, hfne]
    simp only [ht, if_pos, Option.getD_some, hid]
  · intro q f fld v base hop hfil hfne hid
    unfold buildQueryUrl
    rw [hop, hfil]
    have ht : optTruthy (some f) = true := by
      simp [optTruthy, hfne]
    simp only [ht, if_pos, Option.getD_some, hid]

/-- C10: translateWhereClause does not protect single-quoted literals: in
`name = 'a AND b'` the AND inside the literal is rewritten too, yielding
`name eq 'a and b'`. -/
theorem translate_inside_quotes :
    translateWhereClause "name = 'a AND b'" = "name eq 'a and b'"
    ∧ translateWhereClause "name = 'a AND b'" ≠ "name eq 'a AND b'" := by
  decide
